import Mathlib

/-!
Verification of the interactive LAMMPS driver of pyiron_atomistics
(`pyiron_atomistics/lammps/interactive.py`), shallowly embedded over `ℚ`.

Machine floats of the source are modelled as rationals.  Per-atom `(n, 3)`
numpy arrays are modelled as `Matrix (Fin n) (Fin 3) ℚ`, 3×3 arrays as
`Matrix (Fin 3) (Fin 3) ℚ`.  The live engine is external to the code under
verification: the driver's interaction with it is modelled as the data it
scatters (flat coordinate buffers) and the list of textual commands it issues,
in order.

Components of the repository that `interactive.py` imports but whose sources
are not part of the verified tree (`UnfoldingPrism` from `lammps/structure.py`,
`UnitConverter` from `lammps/units.py`, `GenericInteractive` from
`atomistics/job/interactive.py`, and the structure object's `is_skewed`) are
modelled from the specification; each such definition carries a doc comment
starting with `Modelled from the spec:`.
-/

namespace PyironLammps

open Matrix

/-- 3×3 rational matrices model the 3×3 numpy float arrays of the source. -/
abbrev M3 : Type := Matrix (Fin 3) (Fin 3) ℚ

/-- Embeds `np.ndarray.flatten` on an `(n, 3)` array: row-major flat list,
entry `3*i + j` holding `P i j`. -/
def flattenP {n : ℕ} (P : Matrix (Fin n) (Fin 3) ℚ) : List ℚ :=
  List.ofFn fun k : Fin (n * 3) =>
    P ⟨k.val / 3, by have hk := k.isLt; omega⟩ ⟨k.val % 3, by omega⟩

/-- Embeds `np.reshape(flat, (n, 3))`: entry `(i, j)` is flat element `3*i + j`
(missing entries default to `0`, matching out-of-range never occurring on the
buffers the driver gathers). -/
def unflatten (n : ℕ) (l : List ℚ) : Matrix (Fin n) (Fin 3) ℚ :=
  Matrix.of fun i j => l.getD (3 * i.val + j.val) 0

theorem unflatten_flattenP {n : ℕ} (P : Matrix (Fin n) (Fin 3) ℚ) :
    unflatten n (flattenP P) = P := by
  ext i j
  have hlt : 3 * i.val + j.val < n * 3 := by
    have hi := i.isLt
    have hj := j.isLt
    omega
  have hdiv : (3 * i.val + j.val) / 3 = i.val := by omega
  have hmod : (3 * i.val + j.val) % 3 = j.val := by omega
  simp only [unflatten, flattenP, Matrix.of_apply, List.getD_eq_getElem?_getD,
    List.getElem?_ofFn, List.ofFnNthVal, hlt, dif_pos, Option.getD_some]
  congr 1 <;> exact Fin.ext (by simp [hdiv, hmod])

theorem flattenP_injective {n : ℕ} : Function.Injective (@flattenP n) := by
  intro X Y h
  have h2 := congrArg (unflatten n) h
  rwa [unflatten_flattenP, unflatten_flattenP] at h2

/-- Embeds `np.argsort(key)` on the index range `0, …, n-1` as a list of
indices: a stable sort of `List.finRange n` by the key values.  (`np.argsort`
is only used by the driver on pairwise-distinct atom-ID keys, for which every
correct sort agrees.) -/
def argsortList (n : ℕ) (key : Fin n → ℤ) : List (Fin n) :=
  List.insertionSort (fun i j => key i ≤ key j) (List.finRange n)

theorem argsortList_length (n : ℕ) (key : Fin n → ℤ) : (argsortList n key).length = n := by
  have h := (List.perm_insertionSort (fun i j : Fin n => key i ≤ key j)
    (List.finRange n)).length_eq
  rw [List.length_finRange] at h
  exact h

/-- `np.argsort` as a function: position `k` holds the index of the `k`-th
smallest key. -/
def argsortF (n : ℕ) (key : Fin n → ℤ) : Fin n → Fin n :=
  fun k => (argsortList n key).get (Fin.cast (argsortList_length n key).symm k)

theorem argsortList_nodup (n : ℕ) (key : Fin n → ℤ) : (argsortList n key).Nodup :=
  ((List.perm_insertionSort _ _).nodup_iff).mpr (List.nodup_finRange n)

theorem argsortList_sorted (n : ℕ) (key : Fin n → ℤ) :
    List.Sorted (fun i j => key i ≤ key j) (argsortList n key) := by
  haveI ht : IsTotal (Fin n) (fun i j => key i ≤ key j) :=
    ⟨fun a b => le_total (key a) (key b)⟩
  haveI htr : IsTrans (Fin n) (fun i j => key i ≤ key j) :=
    ⟨fun _ _ _ hab hbc => le_trans hab hbc⟩
  exact List.sorted_insertionSort _ _

theorem argsortF_injective (n : ℕ) (key : Fin n → ℤ) :
    Function.Injective (argsortF n key) := by
  intro a b hab
  have h1 : Function.Injective (argsortList n key).get :=
    List.nodup_iff_injective_get.mp (argsortList_nodup n key)
  have h2 := h1 hab
  have h3 : (Fin.cast (argsortList_length n key).symm a).val =
      (Fin.cast (argsortList_length n key).symm b).val := by rw [h2]
  exact Fin.ext h3

theorem argsortF_monotone (n : ℕ) (key : Fin n → ℤ) :
    Monotone (fun k => key (argsortF n key k)) := by
  intro a b hab
  rcases lt_or_eq_of_le hab with h | h
  · have hs := List.pairwise_iff_get.mp (argsortList_sorted n key)
    exact hs _ _ h
  · rw [h]

theorem argsortF_strictMono (n : ℕ) (key : Fin n → ℤ)
    (hinj : Function.Injective key) : StrictMono (fun k => key (argsortF n key k)) := by
  intro a b hab
  have hle := argsortF_monotone n key (le_of_lt hab)
  refine lt_of_le_of_ne hle ?_
  intro h
  exact absurd (argsortF_injective n key (hinj h)) (ne_of_lt hab)

/-- The engine command texts issued by the driver through
`_interactive_lib_command`, as structured values.  Constructor correspondence:
`changeBoxTriclinic` is the text `change_box all triclinic`; `changeBoxOrtho`
is `change_box all ortho`; `changeBoxRemap` is `change_box all remap`;
`changeBoxDimsTilt lx ly lz xy xz yz` is `change_box all x final 0 lx y final
0 ly z final 0 lz xy final xy xz final xz yz final yz remap units box`;
`changeBoxDims lx ly lz` is the tilt-free variant `change_box all x final 0 lx
y final 0 ly z final 0 lz remap units box`. -/
inductive LammpsCommand : Type where
  | changeBoxTriclinic : LammpsCommand
  | changeBoxOrtho : LammpsCommand
  | changeBoxRemap : LammpsCommand
  | changeBoxDimsTilt (lx ly lz xy xz yz : ℚ) : LammpsCommand
  | changeBoxDims (lx ly lz : ℚ) : LammpsCommand
  deriving DecidableEq

/-- A command is a triclinic/orthogonal mode transition. -/
def isModeTransitionCmd : LammpsCommand → Bool
  | LammpsCommand.changeBoxTriclinic => true
  | LammpsCommand.changeBoxOrtho => true
  | _ => false

/-- A command sets the box dimensions. -/
def isBoxDimCmd : LammpsCommand → Bool
  | LammpsCommand.changeBoxDimsTilt _ _ _ _ _ _ => true
  | LammpsCommand.changeBoxDims _ _ _ => true
  | _ => false

/-- One interaction of the driver with the engine: either a bulk scatter of a
flat coordinate buffer (`scatter_atoms`) or a textual command. -/
inductive EngineEvent : Type where
  | scatterX (values : List ℚ) : EngineEvent
  | command (c : LammpsCommand) : EngineEvent
  deriving DecidableEq

/-- The tolerance literal `1.0e-8` used by `interactive_cells_setter`. -/
def tol8 : ℚ := 1 / 100000000

/-- Modelled from the spec: the structure object's `is_skewed(tolerance)`
(the structure/geometry library is not part of the verified tree).  Spec §3:
skew is deviation of the cell's prism rotation from the identity beyond a
tolerance; §4.1 expresses that deviation as the trace of the rotation
differing from 3.  `R` is the prism rotation of the structure's cell. -/
def structure_is_skewed (R : M3) (tol : ℚ) : Prop := tol < |R.trace - 3|

instance (R : M3) (tol : ℚ) : Decidable (structure_is_skewed R tol) := by
  unfold structure_is_skewed
  infer_instance

/-- Labels passed to the unit converter (the `label=` strings of the source). -/
inductive QuantityLabel : Type where
  | positions : QuantityLabel
  | forces : QuantityLabel
  | cells : QuantityLabel
  | pressure : QuantityLabel
  deriving DecidableEq

/-- Modelled from the spec: `UnitConverter(units=...).convert_array_to_pyiron_units`
(`lammps/units.py` is not part of the verified tree).  Spec §3 requires unit
conversion applied exactly once at the boundary and §8 requires the push/pull
round trip to be the identity; since the source's setters scatter without any
unit conversion, the getter-side conversion factor of the active unit system
is the identity for these quantities. -/
def convert_array_to_pyiron_units {α : Type} (x : α) (label : QuantityLabel) : α := x

/-- Transform half of `interactive_positions_setter` (interactive.py lines
83-87): when the trace of the prism rotation `R` (the stored `self._prism.R`)
is exactly not 3, right-multiply the `(n, 3)` position array by `R`; then
flatten row-major for `scatter_atoms`. -/
def positions_to_scatter (R : M3) {n : ℕ} (P : Matrix (Fin n) (Fin 3) ℚ) : List ℚ :=
  if R.trace ≠ 3 then flattenP (P * R) else flattenP P

/-- Embeds `interactive_positions_setter` (interactive.py lines 83-94) as the
ordered engine interactions it performs: scatter the (possibly rotated)
flattened coordinates, then issue `change_box all remap`. -/
def interactive_positions_setter (R : M3) {n : ℕ}
    (P : Matrix (Fin n) (Fin 3) ℚ) : List EngineEvent :=
  [EngineEvent.scatterX (positions_to_scatter R P),
   EngineEvent.command LammpsCommand.changeBoxRemap]

/-- Embeds `interactive_positions_getter` (interactive.py lines 72-81):
reshape the gathered flat buffer to `(n, 3)`, right-multiply by `Rᵀ` when the
trace of the prism rotation is exactly not 3, convert units. -/
def interactive_positions_getter (R : M3) (n : ℕ)
    (engine_x : List ℚ) : Matrix (Fin n) (Fin 3) ℚ :=
  let positions := unflatten n engine_x
  let rotated := if R.trace ≠ 3 then positions * Rᵀ else positions
  convert_array_to_pyiron_units rotated QuantityLabel.positions

/-- Embeds `interactive_forces_getter` (interactive.py lines 155-164), the
same pull pipeline as the positions getter applied to the force buffer. -/
def interactive_forces_getter (R : M3) (n : ℕ)
    (engine_f : List ℚ) : Matrix (Fin n) (Fin 3) ℚ :=
  let ff := unflatten n engine_f
  let rotated := if R.trace ≠ 3 then ff * Rᵀ else ff
  convert_array_to_pyiron_units rotated QuantityLabel.forces

/-- Modelled from the spec for the push direction (the source has no forces
setter): the engine's force buffer holds the engine-frame image of the
caller-frame forces, i.e. the §4.1 forward mapping — the same transform the
positions setter applies — followed by flattening. -/
def forces_in_engine_frame (R : M3) {n : ℕ} (F : Matrix (Fin n) (Fin 3) ℚ) : List ℚ :=
  if R.trace ≠ 3 then flattenP (F * R) else flattenP F

/-- Embeds `interactive_cells_setter` (interactive.py lines 117-147) as the
ordered list of commands it issues.  `Rcur` and `Rprev` are the prism
rotations of the current and previous structures' cells, on which the
tolerance-`1.0e-8` skew test of the source is evaluated (the structure
object's `is_skewed` is modelled from the spec, see `structure_is_skewed`);
`lx … yz` are the six prism scalars of the new cell. -/
def interactive_cells_setter (Rcur Rprev : M3) (lx ly lz xy xz yz : ℚ) :
    List LammpsCommand :=
  if structure_is_skewed Rcur tol8 then
    (if structure_is_skewed Rprev tol8 then [] else [LammpsCommand.changeBoxTriclinic]) ++
      [LammpsCommand.changeBoxDimsTilt lx ly lz xy xz yz]
  else if structure_is_skewed Rprev tol8 then
    [LammpsCommand.changeBoxDimsTilt lx ly lz 0 0 0, LammpsCommand.changeBoxOrtho]
  else
    [LammpsCommand.changeBoxDims lx ly lz]

/-- The flat Voigt index map `ind = [0, 3, 4, 3, 1, 5, 4, 5, 2]` of
`interactive_stress_getter`, viewed row-major as a 3×3 table of indices into
the 6-component per-atom stress record. -/
def voigtIndex : Fin 3 → Fin 3 → Fin 6 :=
  ![![0, 3, 4], ![3, 1, 5], ![4, 5, 2]]

/-- The `ss[:, ind].reshape(n, 3, 3)` step applied to one atom's 6-component
record, including the scalar unit factor `c` (the source's
`/ eV * bar * angstrom**3`). -/
def voigtReshape (c : ℚ) (row : Fin 6 → ℚ) : M3 :=
  Matrix.of fun i j => c * row (voigtIndex i j)

/-- The reordering permutation of `interactive_stress_getter` (interactive.py
lines 720-722): `id_lst = argsort(ids - 1)` (the source's
`np.arange(n)[np.argsort(id_lst)]` equals `np.argsort(id_lst)`). -/
def stressSigma (n : ℕ) (ids : Fin n → ℤ) : Fin n → Fin n :=
  argsortF n (fun i => ids i - 1)

/-- Embeds `interactive_stress_getter` (interactive.py lines 708-737): the
engine's per-local-atom 6-component stress report `raw`, keyed by the
engine-internal ordering whose atom IDs are `ids`, is reordered by
`stressSigma`, reshaped through the Voigt map with unit factor `c`, and — when
the trace of the prism rotation is exactly not 3 — rotated on both tensor
indices as `R · T · Rᵀ`. -/
def interactive_stress_getter (n : ℕ) (ids : Fin n → ℤ) (raw : Fin n → Fin 6 → ℚ)
    (c : ℚ) (R : M3) : Fin n → M3 :=
  let sorted : Fin n → Fin 6 → ℚ := fun k v => raw (stressSigma n ids k) v
  if R.trace ≠ 3 then fun k => R * voigtReshape c (sorted k) * Rᵀ
  else fun k => voigtReshape c (sorted k)

/-- The symmetric pressure tensor assembled from the six `get_thermo` scalars
`pxx, pyy, pzz, pxy, pxz, pyz` (interactive.py lines 741-759). -/
def pressure_tensor (pxx pyy pzz pxy pxz pyz : ℚ) : M3 :=
  Matrix.of ![![pxx, pxy, pxz], ![pxy, pyy, pyz], ![pxz, pyz, pzz]]

/-- Embeds `interactive_pressures_getter` (interactive.py lines 739-763):
`rotation_matrix = Rᵀ`; when its trace is exactly not 3 the tensor becomes
`rotation_matrixᵀ · pp · rotation_matrix`, then units are converted. -/
def interactive_pressures_getter (R : M3) (pxx pyy pzz pxy pxz pyz : ℚ) : M3 :=
  let pp := pressure_tensor pxx pyy pzz pxy pxz pyz
  let rotation_matrix := Rᵀ
  let pp2 := if rotation_matrix.trace ≠ 3 then
    rotation_matrixᵀ * pp * rotation_matrix else pp
  convert_array_to_pyiron_units pp2 QuantityLabel.pressure

/-- Embeds `_FixExternal.fix_external` (interactive.py lines 787-803), the
simplified force-callback wrapper.  `tag` is the engine's atom-ID list in its
internal ordering, `x` the engine-frame positions, `fext` the shared force
buffer (whose prior content is discarded by `fext.fill(0)`), `func` the
user function `(positions, ntimestep, nlocal) -> forces`.  The wrapper
zero-fills the buffer, calls `func` on `x[tags]` (positions reordered by
`tags = tag.argsort()`), scatters the result back via `fext[tags] += …`, and
subtracts the column-wise mean. -/
def fix_external (n : ℕ)
    (func : (Fin n → Fin 3 → ℚ) → ℤ → ℕ → (Fin n → Fin 3 → ℚ))
    (ntimestep : ℤ) (nlocal : ℕ) (tag : Fin n → ℤ)
    (x fext : Fin n → Fin 3 → ℚ) : Fin n → Fin 3 → ℚ :=
  let tags := argsortF n tag
  let zeroed : Fin n → Fin 3 → ℚ := fun _ _ => 0
  let user_forces := func (fun k j => x (tags k) j) ntimestep nlocal
  let filled : Fin n → Fin 3 → ℚ := fun i j =>
    zeroed i j + ∑ k : Fin n, if tags k = i then user_forces k j else 0
  fun i j => filled i j - (∑ i2 : Fin n, filled i2 j) / (n : ℚ)

/-- The observables the interactive result-collection loop pulls. -/
inductive Observable : Type where
  | positions : Observable
  | forces : Observable
  | energy : Observable
  | temperature : Observable
  | pressure : Observable
  | stress : Observable
  | steps : Observable
  deriving DecidableEq

/-- Modelled from the spec: the default observable set whose getters
`interactive_collect` of the generic interactive driver invokes
(`atomistics/job/interactive.py` is not part of the verified tree); spec §4.2
lists positions, forces, energy, temperature, pressure, stress and step
count. -/
def generic_interactive_output_keys : List Observable :=
  [Observable.positions, Observable.forces, Observable.energy,
   Observable.temperature, Observable.pressure, Observable.stress,
   Observable.steps]

/-- Embeds `LammpsInteractive.__init__` (interactive.py lines 46-47): if the
stress key is among the inherited interactive output functions it is deleted,
so stress is not part of the automatic per-step collection. -/
def lammps_interactive_output_keys : List Observable :=
  if Observable.stress ∈ generic_interactive_output_keys then
    generic_interactive_output_keys.erase Observable.stress
  else generic_interactive_output_keys

/-- The driver's view of the persisted output tree: the optional
`output/interactive` group (present or not) and the `output/generic` group,
each a keyed list of nodes.  Node names are modelled as naturals, node
payloads as rationals. -/
structure HdfOutput : Type where
  interactive : Option (List (ℕ × ℚ))
  generic : List (ℕ × ℚ)
  deriving DecidableEq

/-- The session state `interactive_close` acts on: the activation flag
(`interactive_is_activated()`), whether the engine library handle is still
open, and the persisted output tree. -/
structure SessionState : Type where
  activated : Bool
  libraryOpen : Bool
  output : HdfOutput
  deriving DecidableEq

/-- Assignment `h5[key] = value` inside an HDF group: overwrite the node if
the key exists, append it otherwise. -/
def hdfSet : List (ℕ × ℚ) → ℕ → ℚ → List (ℕ × ℚ)
  | [], k, v => [(k, v)]
  | (k', v') :: rest, k, v =>
    if k' = k then (k, v) :: rest else (k', v') :: hdfSet rest k v

/-- Reading `h5[key]` inside an HDF group. -/
def hdfLookup : List (ℕ × ℚ) → ℕ → Option ℚ
  | [], _ => none
  | (k', v') :: rest, k => if k' = k then some v' else hdfLookup rest k

/-- The copy loop of `interactive_close` (interactive.py lines 769-772): if
the `interactive` group exists, every node key under it is assigned under
`generic` with the same value. -/
def copy_interactive_to_generic (out : HdfOutput) : HdfOutput :=
  match out.interactive with
  | none => out
  | some kvs =>
    { interactive := out.interactive,
      generic := kvs.foldl (fun g kv => hdfSet g kv.1 kv.2) out.generic }

/-- Embeds `interactive_close` (interactive.py lines 765-772): when the
session is activated, close the engine library handle, deactivate (the
superclass `interactive_close`, modelled from the spec: releases the engine
handle, transitions to CLOSED) and copy the interactive output nodes into the
generic group; otherwise do nothing. -/
def interactive_close (s : SessionState) : SessionState :=
  if s.activated then
    { activated := false,
      libraryOpen := false,
      output := copy_interactive_to_generic s.output }
  else s

/-- A concrete skewed-cell prism rotation used in witnesses and
counterexamples: the cyclic coordinate permutation, an orthogonal matrix with
determinant 1 and trace 0. -/
def Rcyc : M3 := !![0, 1, 0; 0, 0, 1; 1, 0, 0]

/-- A concrete one-atom `(1, 3)` position/force array used in witnesses and
counterexamples. -/
def Pone : Matrix (Fin 1) (Fin 3) ℚ := !![1, 2, 3]

theorem Rcyc_transpose_eq : Rcycᵀ = !![0, 0, 1; 1, 0, 0; 0, 1, 0] := by
  ext i j
  fin_cases i <;> fin_cases j <;> rfl

theorem Rcyc_trace_ne : Rcyc.trace ≠ 3 := by
  norm_num [Rcyc, Matrix.trace_fin_three_of]

theorem Rcyc_mul_transpose : Rcyc * Rcycᵀ = 1 := by
  rw [Rcyc_transpose_eq, Matrix.one_fin_three]
  norm_num [Rcyc, Matrix.mul_fin_three]

theorem Pone_mul_Rcyc_ne : Pone * Rcyc ≠ Pone * Rcycᵀ := by
  have h1 : Pone * Rcyc = !![3, 1, 2] := by
    ext i j
    fin_cases i <;> fin_cases j <;>
      simp [Pone, Rcyc, Matrix.mul_apply, Fin.sum_univ_three, Matrix.vecHead,
        Matrix.vecTail]
  have h2 : Pone * Rcycᵀ = !![2, 3, 1] := by
    rw [Rcyc_transpose_eq]
    ext i j
    fin_cases i <;> fin_cases j <;>
      simp [Pone, Matrix.mul_apply, Fin.sum_univ_three, Matrix.vecHead,
        Matrix.vecTail]
  rw [h1, h2]
  intro hcontra
  have h00 := congrFun (congrFun hcontra 0) 0
  simp at h00

/-- C1 counterexample: at the concrete skewed prism rotation `Rcyc` and the
position row `(1, 2, 3)`, the setter's scattered buffer is not the claimed
`v · Rᵀ` and the getter's result is not the claimed `v' · R`: the source
multiplies by `R` on push (line 86) and by `Rᵀ` on pull (lines 79, 162), so
the claim's forward/inverse formulas fail as stated. -/
theorem vector_mapping_transposed_counterexample :
    positions_to_scatter Rcyc Pone ≠ flattenP (Pone * Rcycᵀ) ∧
    interactive_positions_getter Rcyc 1 (flattenP Pone) ≠ Pone * Rcyc := by
  constructor
  · intro hcontra
    rw [positions_to_scatter, if_pos Rcyc_trace_ne] at hcontra
    exact Pone_mul_Rcyc_ne (flattenP_injective hcontra)
  · have hg : interactive_positions_getter Rcyc 1 (flattenP Pone) = Pone * Rcycᵀ := by
      simp [interactive_positions_getter, convert_array_to_pyiron_units,
        unflatten_flattenP, if_pos Rcyc_trace_ne]
    rw [hg]
    exact Pone_mul_Rcyc_ne.symm

/-- C1 (amended): for every prism rotation `R` (the matrix stored as
`self._prism.R`) with `trace R ≠ 3` — the source's exact skew test — the
driver pushes vector quantities into the engine frame by the forward mapping
`v' = v · R`, applied before scattering, and pulls positions and forces out by
the inverse mapping `v = v' · Rᵀ`, applied after gathering; i.e. the claim's
formulas hold with `R` and `Rᵀ` interchanged. -/
theorem vector_mapping_forward_R_inverse_Rt (R : M3) {n : ℕ}
    (P X F : Matrix (Fin n) (Fin 3) ℚ) (h : R.trace ≠ 3) :
    interactive_positions_setter R P =
      [EngineEvent.scatterX (flattenP (P * R)),
       EngineEvent.command LammpsCommand.changeBoxRemap] ∧
    interactive_positions_getter R n (flattenP X) = X * Rᵀ ∧
    interactive_forces_getter R n (flattenP F) = F * Rᵀ := by
  refine ⟨?_, ?_, ?_⟩
  · simp [interactive_positions_setter, positions_to_scatter, if_pos h]
  · simp [interactive_positions_getter, convert_array_to_pyiron_units,
      unflatten_flattenP, if_pos h]
  · simp [interactive_forces_getter, convert_array_to_pyiron_units,
      unflatten_flattenP, if_pos h]

/-- C1 witness: the amended mapping at the concrete rotation `Rcyc` and array
`Pone`. -/
theorem vector_mapping_forward_R_inverse_Rt_witness :
    Rcyc.trace ≠ 3 ∧
    interactive_positions_getter Rcyc 1 (flattenP Pone) = Pone * Rcycᵀ :=
  ⟨Rcyc_trace_ne,
   (vector_mapping_forward_R_inverse_Rt Rcyc Pone Pone Pone Rcyc_trace_ne).2.1⟩

/-- C2 counterexample: at the concrete skewed prism rotation `Rcyc` and the
engine pressure tensor with `pxy = 1` and all other components `0`, the
pressure getter returns `R · T' · Rᵀ`, which differs from the claimed
`Rᵀ · T' · R`. -/
theorem tensor_mapping_transposed_counterexample :
    interactive_pressures_getter Rcyc 0 0 0 1 0 0 ≠
      Rcycᵀ * pressure_tensor 0 0 0 1 0 0 * Rcyc := by
  have hpp : pressure_tensor 0 0 0 1 0 0 = !![0, 1, 0; 1, 0, 0; 0, 0, 0] := rfl
  have hT : (Rcycᵀ).trace ≠ 3 := by
    rw [Matrix.trace_transpose]
    exact Rcyc_trace_ne
  have h1 : interactive_pressures_getter Rcyc 0 0 0 1 0 0 =
      !![0, 0, 1; 0, 0, 0; 1, 0, 0] := by
    simp only [interactive_pressures_getter, convert_array_to_pyiron_units]
    rw [if_pos hT, Matrix.transpose_transpose, hpp, Rcyc_transpose_eq]
    ext i j
    fin_cases i <;> fin_cases j <;>
      simp [Rcyc, Matrix.mul_apply, Fin.sum_univ_three, Matrix.vecHead,
        Matrix.vecTail]
  have h2 : Rcycᵀ * pressure_tensor 0 0 0 1 0 0 * Rcyc =
      !![0, 0, 0; 0, 0, 1; 0, 1, 0] := by
    rw [hpp, Rcyc_transpose_eq]
    ext i j
    fin_cases i <;> fin_cases j <;>
      simp [Rcyc, Matrix.mul_apply, Fin.sum_univ_three, Matrix.vecHead,
        Matrix.vecTail]
  rw [h1, h2]
  intro hcontra
  have h20 := congrFun (congrFun hcontra 2) 0
  simp [Matrix.vecHead, Matrix.vecTail] at h20

/-- C2 (amended): for every prism rotation `R` with `trace R ≠ 3`, rank-2
tensor quantities are pulled out of the engine with the rotation applied on
both indices as `T = R · T' · Rᵀ` (the claim's formula with `R` and `Rᵀ`
interchanged): the pressure getter conjugates the assembled engine tensor by
`R` on the left, and the per-atom stress getter does the same to every
reordered, Voigt-reshaped per-atom tensor. -/
theorem tensor_out_mapping_R_left_Rt_right (R : M3) (h : R.trace ≠ 3)
    (n : ℕ) (ids : Fin n → ℤ) (raw : Fin n → Fin 6 → ℚ) (c : ℚ)
    (pxx pyy pzz pxy pxz pyz : ℚ) :
    interactive_pressures_getter R pxx pyy pzz pxy pxz pyz =
      R * pressure_tensor pxx pyy pzz pxy pxz pyz * Rᵀ ∧
    ∀ k, interactive_stress_getter n ids raw c R k =
      R * voigtReshape c (fun v => raw (stressSigma n ids k) v) * Rᵀ := by
  have hT : (Rᵀ).trace ≠ 3 := by rwa [Matrix.trace_transpose]
  constructor
  · simp only [interactive_pressures_getter, convert_array_to_pyiron_units]
    rw [if_pos hT, Matrix.transpose_transpose]
  · intro k
    simp [interactive_stress_getter, if_pos h]

/-- C2 witness: the amended tensor mapping at the concrete rotation `Rcyc`
and the pressure tensor with `pxy = 1`. -/
theorem tensor_out_mapping_R_left_Rt_right_witness :
    Rcyc.trace ≠ 3 ∧
    interactive_pressures_getter Rcyc 0 0 0 1 0 0 =
      Rcyc * pressure_tensor 0 0 0 1 0 0 * Rcycᵀ :=
  ⟨Rcyc_trace_ne,
   (tensor_out_mapping_R_left_Rt_right Rcyc Rcyc_trace_ne 1 (fun _ => 1)
     (fun _ _ => 0) 1 0 0 0 1 0 0).1⟩

/-- C6: pushing positions through the driver's setter and pulling them back
through the positions getter returns the original values exactly, for every
cell whose prism rotation `R` is orthogonal (`R · Rᵀ = 1`), skewed or not;
likewise pulling forces whose engine-frame image was pushed by the forward
mapping returns the original forces.  The unit conversion at the boundary is
the identity, so the whole round trip is the identity. -/
theorem push_pull_roundtrip_identity (R : M3) {n : ℕ}
    (P F : Matrix (Fin n) (Fin 3) ℚ) (hR : R * Rᵀ = 1) :
    interactive_positions_getter R n (positions_to_scatter R P) = P ∧
    interactive_forces_getter R n (forces_in_engine_frame R F) = F := by
  by_cases h : R.trace = 3
  · constructor <;>
      simp [interactive_positions_getter, interactive_forces_getter,
        positions_to_scatter, forces_in_engine_frame,
        convert_array_to_pyiron_units, unflatten_flattenP, h]
  · constructor <;>
      simp [interactive_positions_getter, interactive_forces_getter,
        positions_to_scatter, forces_in_engine_frame,
        convert_array_to_pyiron_units, unflatten_flattenP, h,
        Matrix.mul_assoc, hR]

/-- C6 witness: the round trip at the concrete skewed orthogonal rotation
`Rcyc` and array `Pone`. -/
theorem push_pull_roundtrip_identity_witness :
    Rcyc * Rcycᵀ = 1 ∧
    interactive_positions_getter Rcyc 1 (positions_to_scatter Rcyc Pone) = Pone :=
  ⟨Rcyc_mul_transpose,
   (push_pull_roundtrip_identity Rcyc Pone Pone Rcyc_mul_transpose).1⟩

theorem skewed_Rcyc : structure_is_skewed Rcyc tol8 := by
  rw [structure_is_skewed, tol8]
  norm_num [Rcyc, Matrix.trace_fin_three_of]

theorem not_skewed_one : ¬ structure_is_skewed (1 : M3) tol8 := by
  rw [structure_is_skewed, tol8]
  norm_num [Matrix.trace_one]

/-- C3: per call of the cell setter, embedded over the skew states of the new
and previous cells: entering skew issues exactly `change_box all triclinic`
followed by the tilted box-dimension command; leaving skew issues the
box-dimension command with tilt factors zeroed followed by exactly
`change_box all ortho`; an unchanged skew state issues no mode-transition
command; and no issued command is simultaneously a mode transition and a
box-dimension command (they are never merged). -/
theorem cells_setter_mode_transition_commands (Rc Rp : M3) (lx ly lz xy xz yz : ℚ) :
    (structure_is_skewed Rc tol8 → ¬ structure_is_skewed Rp tol8 →
      interactive_cells_setter Rc Rp lx ly lz xy xz yz =
        [LammpsCommand.changeBoxTriclinic,
         LammpsCommand.changeBoxDimsTilt lx ly lz xy xz yz]) ∧
    (¬ structure_is_skewed Rc tol8 → structure_is_skewed Rp tol8 →
      interactive_cells_setter Rc Rp lx ly lz xy xz yz =
        [LammpsCommand.changeBoxDimsTilt lx ly lz 0 0 0,
         LammpsCommand.changeBoxOrtho]) ∧
    ((structure_is_skewed Rc tol8 ↔ structure_is_skewed Rp tol8) →
      (interactive_cells_setter Rc Rp lx ly lz xy xz yz).countP
        isModeTransitionCmd = 0) ∧
    (interactive_cells_setter Rc Rp lx ly lz xy xz yz).countP
      (fun cmd => isModeTransitionCmd cmd && isBoxDimCmd cmd) = 0 := by
  by_cases h1 : structure_is_skewed Rc tol8 <;>
    by_cases h2 : structure_is_skewed Rp tol8 <;>
      refine ⟨?_, ?_, ?_, ?_⟩ <;>
        simp [interactive_cells_setter, h1, h2, isModeTransitionCmd, isBoxDimCmd,
          List.countP_cons, List.countP_nil]

/-- C3 witness: entering the skewed state at the concrete rotations `Rcyc`
(skewed) and `1` (not skewed) with concrete prism scalars. -/
theorem cells_setter_mode_transition_commands_witness :
    structure_is_skewed Rcyc tol8 ∧ ¬ structure_is_skewed (1 : M3) tol8 ∧
    interactive_cells_setter Rcyc 1 2 3 4 (1 / 2) 0 0 =
      [LammpsCommand.changeBoxTriclinic,
       LammpsCommand.changeBoxDimsTilt 2 3 4 (1 / 2) 0 0] :=
  ⟨skewed_Rcyc, not_skewed_one,
   (cells_setter_mode_transition_commands Rcyc 1 2 3 4 (1 / 2) 0 0).1
     skewed_Rcyc not_skewed_one⟩

/-- Cosine of a tiny rational rotation angle: `1 - 2/(10^10 + 1)`. -/
def cEps : ℚ := 9999999999 / 10000000001

/-- Sine of the same tiny rational rotation angle. -/
def sEps : ℚ := 200000 / 10000000001

/-- A genuine rotation about the z axis whose trace differs from 3 by
`4/(10^10 + 1)`, strictly between 0 and the tolerance `1.0e-8`. -/
def Reps : M3 := !![cEps, -sEps, 0; sEps, cEps, 0; 0, 0, 1]

theorem Reps_trace_eq : Reps.trace = 3 - 4 / 10000000001 := by
  norm_num [Reps, Matrix.trace_fin_three_of, cEps]

theorem Reps_trace_ne : Reps.trace ≠ 3 := by
  rw [Reps_trace_eq]
  norm_num

theorem Reps_not_skewed : ¬ structure_is_skewed Reps tol8 := by
  rw [structure_is_skewed, Reps_trace_eq, tol8]
  have h : (3 : ℚ) - 4 / 10000000001 - 3 = -(4 / 10000000001) := by ring
  rw [h, abs_neg, abs_of_nonneg (by norm_num)]
  norm_num

theorem Reps_transpose_eq : Repsᵀ = !![cEps, sEps, 0; -sEps, cEps, 0; 0, 0, 1] := by
  ext i j
  fin_cases i <;> fin_cases j <;> rfl

theorem Reps_mul_transpose : Reps * Repsᵀ = 1 := by
  rw [Reps_transpose_eq, Matrix.one_fin_three]
  ext i j
  fin_cases i <;> fin_cases j <;>
    simp [Reps, cEps, sEps, Matrix.mul_apply, Fin.sum_univ_three, Matrix.vecHead,
      Matrix.vecTail] <;> norm_num

theorem Pone_mul_Reps_ne : Pone * Reps ≠ Pone := by
  intro hcontra
  have h00 := congrFun (congrFun hcontra 0) 0
  simp [Pone, Reps, cEps, sEps, Matrix.mul_apply, Fin.sum_univ_three,
    Matrix.vecHead, Matrix.vecTail] at h00
  norm_num at h00

/-- C7 counterexample: `Reps` is a genuine rotation (orthogonal) whose trace
differs from 3 by less than the tolerance `1.0e-8`, so under the claim's
single condition — skew means trace differing from 3 within floating
tolerance — it is not skewed and no rotation should be applied; yet the
positions setter does rotate the scattered coordinates (its gate is the exact
comparison `trace ≠ 3`), while the cell setter, whose gate is the tolerance
test, issues no mode-transition command.  No single condition gates both. -/
theorem skew_gate_single_condition_counterexample :
    Reps * Repsᵀ = 1 ∧
    Reps.trace ≠ 3 ∧
    ¬ structure_is_skewed Reps tol8 ∧
    positions_to_scatter Reps Pone ≠ flattenP Pone ∧
    (interactive_cells_setter Reps 1 2 3 4 0 0 0).countP isModeTransitionCmd = 0 := by
  refine ⟨Reps_mul_transpose, Reps_trace_ne, Reps_not_skewed, ?_, ?_⟩
  · intro hcontra
    rw [positions_to_scatter, if_pos Reps_trace_ne] at hcontra
    exact Pone_mul_Reps_ne (flattenP_injective hcontra)
  · simp [interactive_cells_setter, Reps_not_skewed, not_skewed_one,
      isModeTransitionCmd, List.countP_cons, List.countP_nil]

/-- C7 (amended): the driver has two distinct skew gates, not one: the
rotation application in the position push (and every getter/setter transform)
is gated by the exact comparison `trace R ≠ 3` with no tolerance, while the
triclinic/orthogonal mode-transition commands of the cell setter are gated by
the tolerance-`1.0e-8` skew predicate evaluated on the current and previous
cells; these conditions disagree when `0 < |trace R - 3| ≤ 1.0e-8`. -/
theorem skew_gates_exact_vs_tolerance (R Rp : M3) {n : ℕ}
    (P : Matrix (Fin n) (Fin 3) ℚ) (lx ly lz xy xz yz : ℚ) :
    (R.trace ≠ 3 → positions_to_scatter R P = flattenP (P * R)) ∧
    (R.trace = 3 → positions_to_scatter R P = flattenP P) ∧
    ((interactive_cells_setter R Rp lx ly lz xy xz yz).countP isModeTransitionCmd =
      if structure_is_skewed R tol8 ↔ structure_is_skewed Rp tol8 then 0 else 1) := by
  refine ⟨?_, ?_, ?_⟩
  · intro h
    rw [positions_to_scatter, if_pos h]
  · intro h
    rw [positions_to_scatter, if_neg (by simp [h])]
  · by_cases h1 : structure_is_skewed R tol8 <;>
      by_cases h2 : structure_is_skewed Rp tol8 <;>
        simp [interactive_cells_setter, h1, h2, isModeTransitionCmd,
          List.countP_cons, List.countP_nil]

/-- C7 witness: the two gates at the concrete skewed rotation `Rcyc` (current)
and identity rotation (previous). -/
theorem skew_gates_exact_vs_tolerance_witness :
    Rcyc.trace ≠ 3 ∧
    positions_to_scatter Rcyc Pone = flattenP (Pone * Rcyc) :=
  ⟨Rcyc_trace_ne,
   (skew_gates_exact_vs_tolerance Rcyc 1 Pone 2 3 4 0 0 0).1 Rcyc_trace_ne⟩

/-- C10: every call of the positions setter, for skewed and non-skewed prism
rotations alike, scatters the new coordinates and then issues exactly one
engine command, `change_box all remap`, as its final engine interaction. -/
theorem positions_setter_final_remap_command (R : M3) {n : ℕ}
    (P : Matrix (Fin n) (Fin 3) ℚ) :
    interactive_positions_setter R P =
      [EngineEvent.scatterX (positions_to_scatter R P),
       EngineEvent.command LammpsCommand.changeBoxRemap] ∧
    (interactive_positions_setter R P).getLast? =
      some (EngineEvent.command LammpsCommand.changeBoxRemap) :=
  ⟨rfl, rfl⟩

/-- C4: every invocation of the simplified force-callback wrapper zero-fills
the shared buffer, calls the user function on the positions reordered into
ascending atom-ID order (the reordered ID sequence along `argsortF` is
monotone), scatters the result back into the engine's internal ordering and
subtracts the column-wise mean, so that on return the buffer's column-wise
mean — the net translational force — is exactly zero, whatever forces the
user function returns. -/
theorem fix_external_zero_net_force (n : ℕ)
    (func : (Fin n → Fin 3 → ℚ) → ℤ → ℕ → (Fin n → Fin 3 → ℚ))
    (ntimestep : ℤ) (nlocal : ℕ) (tag : Fin n → ℤ) (x fext : Fin n → Fin 3 → ℚ)
    (hn : 0 < n) :
    Monotone (fun k => tag (argsortF n tag k)) ∧
    ∀ j, (∑ i : Fin n, fix_external n func ntimestep nlocal tag x fext i j) /
      (n : ℚ) = 0 := by
  refine ⟨argsortF_monotone n tag, fun j => ?_⟩
  have hne : (n : ℚ) ≠ 0 := Nat.cast_ne_zero.mpr hn.ne'
  have key : ∀ F : Fin n → ℚ,
      ∑ i : Fin n, (F i - (∑ i2 : Fin n, F i2) / (n : ℚ)) = 0 := by
    intro F
    rw [Finset.sum_sub_distrib, Finset.sum_const, Finset.card_univ,
      Fintype.card_fin, nsmul_eq_mul, ← mul_div_assoc,
      mul_div_cancel_left₀ _ hne, sub_self]
  simp only [fix_external]
  rw [key, zero_div]

/-- Concrete user function for the C4 witness: the constant non-zero force 7
on every atom and component. -/
def funcW : (Fin 2 → Fin 3 → ℚ) → ℤ → ℕ → (Fin 2 → Fin 3 → ℚ) :=
  fun _ _ _ _ _ => 7

/-- Concrete engine atom-ID list for the C4 witness (internal order 5, 3). -/
def tagW : Fin 2 → ℤ := ![5, 3]

/-- C4 witness: with the constant non-zero user force, the returned buffer's
column-wise mean is exactly zero. -/
theorem fix_external_zero_net_force_witness :
    0 < 2 ∧
    (∑ i : Fin 2, fix_external 2 funcW 0 2 tagW (fun _ _ => 0) (fun _ _ => 0) i 0) /
      ((2 : ℕ) : ℚ) = 0 :=
  ⟨by norm_num,
   (fix_external_zero_net_force 2 funcW 0 2 tagW (fun _ _ => 0) (fun _ _ => 0)
     (by norm_num)).2 0⟩

/-- C5: the stress getter re-sorts the engine's flattened 6-component-per-atom
report — keyed by the engine-internal atom ordering with IDs `ids` — into the
caller's ascending atom-ID ordering: the reordering `stressSigma` is a
bijection along which the IDs are strictly increasing (engine IDs are
pairwise distinct); the report is then reshaped through the Voigt index map
`[0, 3, 4, 3, 1, 5, 4, 5, 2]` into per-atom 3×3 tensors, and the rotation on
the two tensor indices is applied only after this reordering and
reshaping. -/
theorem stress_getter_sorts_by_atom_id (n : ℕ) (ids : Fin n → ℤ)
    (raw : Fin n → Fin 6 → ℚ) (c : ℚ) (R : M3)
    (hinj : Function.Injective ids) :
    Function.Bijective (stressSigma n ids) ∧
    StrictMono (fun k => ids (stressSigma n ids k)) ∧
    ∀ k, interactive_stress_getter n ids raw c R k =
      if R.trace ≠ 3 then
        R * voigtReshape c (fun v => raw (stressSigma n ids k) v) * Rᵀ
      else voigtReshape c (fun v => raw (stressSigma n ids k) v) := by
  refine ⟨?_, ?_, ?_⟩
  · exact Finite.injective_iff_bijective.mp (argsortF_injective n _)
  · have hinj2 : Function.Injective (fun i => ids i - 1) := by
      intro a b hab
      exact hinj (sub_left_inj.mp hab)
    have hs := argsortF_strictMono n (fun i => ids i - 1) hinj2
    intro a b hab
    exact sub_lt_sub_iff_right (1 : ℤ) |>.mp (hs hab)
  · intro k
    by_cases h : R.trace ≠ 3 <;> simp [interactive_stress_getter, h]

/-- Concrete engine atom-ID list for the C5 witness (internal order 2, 1). -/
def idsW : Fin 2 → ℤ := ![2, 1]

theorem idsW_injective : Function.Injective idsW := by
  intro a b hab
  fin_cases a <;> fin_cases b <;> simp_all [idsW]

/-- C5 witness: the getter's characterization at the concrete ID list
`(2, 1)`, zero raw report, unit factor 1 and rotation `Rcyc`, for atom 0. -/
theorem stress_getter_sorts_by_atom_id_witness :
    Function.Injective idsW ∧
    interactive_stress_getter 2 idsW (fun _ _ => 0) 1 Rcyc 0 =
      if Rcyc.trace ≠ 3 then
        Rcyc * voigtReshape 1 (fun v => (fun _ _ => (0 : ℚ)) (stressSigma 2 idsW 0) v) * Rcycᵀ
      else voigtReshape 1 (fun v => (fun _ _ => (0 : ℚ)) (stressSigma 2 idsW 0) v) :=
  ⟨idsW_injective,
   (stress_getter_sorts_by_atom_id 2 idsW (fun _ _ => 0) 1 Rcyc idsW_injective).2.2 0⟩

/-- C8 counterexample: per-atom stress is not among the observables that are
automatically collected into the result cache: `LammpsInteractive.__init__`
deletes the stress key from the inherited interactive output functions. -/
theorem stress_not_in_automatic_collection :
    Observable.stress ∉ lammps_interactive_output_keys := by decide

/-- C8 (amended): the automatic per-step collection pulls positions, forces,
energy, temperature, pressure and step count — the inherited observable set
minus per-atom stress, which `__init__` removes and which is only computed on
demand by the stress getter. -/
theorem collected_observables_exclude_stress :
    lammps_interactive_output_keys =
      [Observable.positions, Observable.forces, Observable.energy,
       Observable.temperature, Observable.pressure, Observable.steps] ∧
    Observable.stress ∈ generic_interactive_output_keys := by
  refine ⟨?_, ?_⟩ <;> decide

theorem hdfLookup_hdfSet_self (g : List (ℕ × ℚ)) (k : ℕ) (v : ℚ) :
    hdfLookup (hdfSet g k v) k = some v := by
  induction g with
  | nil => simp [hdfSet, hdfLookup]
  | cons kv rest ih =>
    obtain ⟨k1, v1⟩ := kv
    by_cases h : k1 = k
    · simp [hdfSet, hdfLookup, h]
    · simp [hdfSet, hdfLookup, h, ih]

theorem hdfLookup_hdfSet_ne (g : List (ℕ × ℚ)) (k k2 : ℕ) (v : ℚ) (h : k2 ≠ k) :
    hdfLookup (hdfSet g k2 v) k = hdfLookup g k := by
  induction g with
  | nil => simp [hdfSet, hdfLookup, h]
  | cons kv rest ih =>
    obtain ⟨k1, v1⟩ := kv
    by_cases h1 : k1 = k2
    · subst h1
      simp [hdfSet, hdfLookup, h]
    · by_cases h2 : k1 = k
      · simp [hdfSet, hdfLookup, h1, h2, Ne.symm h]
      · simp [hdfSet, hdfLookup, h1, h2, ih]

theorem hdfLookup_foldl_not_mem (kvs : List (ℕ × ℚ)) (g : List (ℕ × ℚ)) (k : ℕ)
    (h : k ∉ kvs.map Prod.fst) :
    hdfLookup (kvs.foldl (fun g2 kv => hdfSet g2 kv.1 kv.2) g) k = hdfLookup g k := by
  induction kvs generalizing g with
  | nil => simp
  | cons kv rest ih =>
    obtain ⟨k1, v1⟩ := kv
    simp only [List.map_cons, List.mem_cons] at h
    push_neg at h
    rw [List.foldl_cons]
    rw [ih _ h.2]
    exact hdfLookup_hdfSet_ne g k k1 v1 (fun hh => h.1 hh.symm)

theorem hdfLookup_foldl_mem (kvs : List (ℕ × ℚ)) (g : List (ℕ × ℚ)) (k : ℕ) (v : ℚ)
    (hnd : (kvs.map Prod.fst).Nodup) (h : (k, v) ∈ kvs) :
    hdfLookup (kvs.foldl (fun g2 kv => hdfSet g2 kv.1 kv.2) g) k = some v := by
  induction kvs generalizing g with
  | nil => simp at h
  | cons kv rest ih =>
    obtain ⟨k1, v1⟩ := kv
    simp only [List.map_cons, List.nodup_cons] at hnd
    rw [List.foldl_cons]
    rcases List.mem_cons.mp h with heq | hmem
    · injection heq with hk hv
      subst hk
      subst hv
      rw [hdfLookup_foldl_not_mem rest _ k hnd.1]
      exact hdfLookup_hdfSet_self g k v
    · exact ih _ hnd.2 hmem

/-- C9: closing an active session releases the engine handle and deactivates
the session, and copies exactly the node keys present under the interactive
output group into the generic output group — every interactive node key
appears under generic with the same value, and a key not among the
interactive nodes keeps its previous generic value (no other key is
written); closing a non-active session changes nothing. -/
theorem interactive_close_copies_interactive_to_generic (s : SessionState)
    (kvs : List (ℕ × ℚ)) (k : ℕ) (v : ℚ) :
    (s.activated = false → interactive_close s = s) ∧
    (s.activated = true →
      (interactive_close s).activated = false ∧
      (interactive_close s).libraryOpen = false) ∧
    (s.activated = true → s.output.interactive = some kvs →
      (kvs.map Prod.fst).Nodup →
      ((k, v) ∈ kvs →
        hdfLookup (interactive_close s).output.generic k = some v) ∧
      (k ∉ kvs.map Prod.fst →
        hdfLookup (interactive_close s).output.generic k =
          hdfLookup s.output.generic k)) := by
  refine ⟨?_, ?_, ?_⟩
  · intro h
    simp [interactive_close, h]
  · intro h
    simp [interactive_close, h]
  · intro hact hint hnd
    constructor
    · intro hmem
      simp only [interactive_close, hact, if_pos, copy_interactive_to_generic, hint]
      exact hdfLookup_foldl_mem kvs s.output.generic k v hnd hmem
    · intro hnot
      simp only [interactive_close, hact, if_pos, copy_interactive_to_generic, hint]
      exact hdfLookup_foldl_not_mem kvs s.output.generic k hnot

/-- Concrete active session for the C9 witness. -/
def sW : SessionState :=
  { activated := true,
    libraryOpen := true,
    output := { interactive := some [(0, 5), (1, 7)], generic := [(2, 9)] } }

/-- C9 witness: closing the concrete active session `sW` copies interactive
node 0 with its value 5 into the generic group. -/
theorem interactive_close_copies_interactive_to_generic_witness :
    sW.activated = true ∧
    hdfLookup (interactive_close sW).output.generic 0 = some 5 :=
  ⟨rfl,
   ((interactive_close_copies_interactive_to_generic sW [(0, 5), (1, 7)] 0 5).2.2
     rfl rfl (by simp)).1 (by simp)⟩

end PyironLammps
